import Mathlib

/-!
Verification development for the Git integration and branch-automation
subsystem of the postgirl repository.

The embedding models Rust strings as lists of Unicode scalar values
(`List Nat`), so that byte-indexed operations (`String::truncate`) and
multi-byte UTF-8 characters can be reasoned about faithfully.  Pure
functions from `src-tauri/src/models/git.rs` are translated directly;
the stateful services from `src-tauri/src/services/git_service.rs` and
`src-tauri/src/services/git_branch_service.rs` are translated into
explicit state-passing functions, with the externally observable
behaviour of the native git engine / the `git` CLI / the SQLite store
modelled as explicit state and outcome flags.
-/

/-- Embed a Lean string literal as a list of code points. -/
def rstr (s : String) : List Nat := s.data.map Char.toNat

/-- Code point of the hyphen character. -/
def hyphenChar : Nat := 45

/-- Code point of the apostrophe character (used in service messages). -/
def aposChar : Nat := 39

/-- Number of bytes of the UTF-8 encoding of a scalar value.
Mirrors the byte counting that underlies Rust `String::len`. -/
def charUtf8Size (c : Nat) : Nat :=
  if c < 0x80 then 1 else if c < 0x800 then 2 else if c < 0x10000 then 3 else 4

/-- Rust `String::len`: the length in UTF-8 bytes. -/
def byteLen (s : List Nat) : Nat := (s.map charUtf8Size).sum

/-- Rust `str::to_lowercase`, restricted to the Basic Latin and Latin-1
code points that this development exercises: `A`-`Z` and the Latin-1
uppercase letters `À`-`Þ` (except `×`) map down by 0x20; every other
modelled code point is left unchanged. -/
def toLowerChar (c : Nat) : Nat :=
  if 65 ≤ c ∧ c ≤ 90 then c + 32
  else if 192 ≤ c ∧ c ≤ 222 ∧ c ≠ 215 then c + 32
  else c

/-- Rust `char::is_alphanumeric`, exact on the Basic Latin and Latin-1
range (digits, ASCII letters, `ª µ º ² ³ ¹ ¼ ½ ¾`, and the Latin-1
letters except `×` and `÷`); code points above 0xFF are treated as
non-alphanumeric in this model. -/
def rust_is_alphanumeric (c : Nat) : Bool :=
  decide ((48 ≤ c ∧ c ≤ 57) ∨ (65 ≤ c ∧ c ≤ 90) ∨ (97 ≤ c ∧ c ≤ 122) ∨
    c = 170 ∨ c = 178 ∨ c = 179 ∨ c = 181 ∨ c = 185 ∨ c = 186 ∨
    c = 188 ∨ c = 189 ∨ c = 190 ∨
    (192 ≤ c ∧ c ≤ 214) ∨ (216 ≤ c ∧ c ≤ 246) ∨ (248 ≤ c ∧ c ≤ 255))

/-- One character of the sanitization map in `BranchGenerator::sanitize_name`
(git.rs:210): keep alphanumerics, hyphen and underscore, replace
everything else by a hyphen. -/
def sanitizeChar (c : Nat) : Nat :=
  if rust_is_alphanumeric c || c == hyphenChar || c == 95 then c else hyphenChar

/-- Rust `str::split(sep)` on a single character: produces the (possibly
empty) pieces between occurrences of `sep`, with empty pieces at the
ends and between adjacent separators. -/
def splitOnChar (sep : Nat) : List Nat → List (List Nat)
  | [] => [[]]
  | c :: rest =>
    match splitOnChar sep rest with
    | [] => [[c]]
    | s :: ss => if c = sep then [] :: s :: ss else (c :: s) :: ss

/-- `Vec::join("-")`: interleave a single hyphen between the pieces. -/
def joinHyphen : List (List Nat) → List Nat
  | [] => []
  | [s] => s
  | s :: rest => s ++ hyphenChar :: joinHyphen rest

/-- `BranchGenerator::sanitize_name` (git.rs:207-216): lowercase, map
every character that is not alphanumeric/hyphen/underscore to a hyphen,
split on hyphens, drop empty segments, rejoin with single hyphens. -/
def sanitize_name (name : List Nat) : List Nat :=
  joinHyphen
    (((name.map toLowerChar).map sanitizeChar |> splitOnChar hyphenChar).filter
      (fun s => !s.isEmpty))

/-- Scanner underlying `str::replace`: at each position, if the pattern
matches here, emit the replacement and skip the match, otherwise advance
one character.  `fuel` bounds the recursion and is instantiated with the
input length (each step consumes at least one input character). -/
def replaceGo (pat rep : List Nat) : Nat → List Nat → List Nat
  | 0, s => s
  | _ + 1, [] => []
  | fuel + 1, c :: s =>
    if pat.isPrefixOf (c :: s) then rep ++ replaceGo pat rep fuel ((c :: s).drop pat.length)
    else c :: replaceGo pat rep fuel s

/-- Rust `str::replace(pat, to)`: left-to-right, non-overlapping. -/
def replaceList (s pat rep : List Nat) : List Nat :=
  if pat = [] then s else replaceGo pat rep s.length s

/-- Rust `String::truncate(n)` (byte-indexed): `none` models the Rust
panic that occurs when `n` is below the byte length and does not lie on
a character boundary; otherwise the string is cut to at most `n` bytes. -/
def truncateBytes : List Nat → Nat → Option (List Nat)
  | [], _ => some []
  | c :: s, n =>
    if n = 0 then some []
    else if charUtf8Size c ≤ n then (truncateBytes s (n - charUtf8Size c)).map (c :: ·)
    else none

/-- Rust `str::trim_end_matches('-')`. -/
def trimEndHyphens (s : List Nat) : List Nat :=
  ((s.reverse.dropWhile (fun c => c == hyphenChar)).reverse)

/-- Does the string start with a hyphen (`str::starts_with('-')`)? -/
def startsWithHyphen (s : List Nat) : Bool :=
  match s with
  | [] => false
  | c :: _ => c == hyphenChar

/-- Does the string end with a hyphen (`str::ends_with('-')`)? -/
def endsWithHyphen (s : List Nat) : Bool :=
  s.getLast? == some hyphenChar

/-- Rust `str::contains(pat)` for a string pattern: substring search. -/
def containsSeq (pat s : List Nat) : Bool :=
  s.tails.any (fun t => pat.isPrefixOf t)

/-- The Git-forbidden characters of git.rs:233: `~ ^ : ? * [ \` and space. -/
def forbiddenChars : List Nat := [126, 94, 58, 63, 42, 91, 92, 32]

/-- Membership in `forbiddenChars` as a Bool predicate. -/
def isForbiddenChar (c : Nat) : Bool := forbiddenChars.contains c

/-- `FeatureType` (git.rs:68-81). -/
inductive FeatureType where
  | Feature
  | Bugfix
  | Hotfix
  | Experiment
  | Refactor
  | Documentation
deriving DecidableEq

/-- `impl fmt::Display for FeatureType` (git.rs:83-94): canonical
lowercase token of each feature type. -/
def featureTypeToString : FeatureType → List Nat
  | .Feature => rstr ("feature")
  | .Bugfix => rstr ("bugfix")
  | .Hotfix => rstr ("hotfix")
  | .Experiment => rstr ("experiment")
  | .Refactor => rstr ("refactor")
  | .Documentation => rstr ("docs")

/-- `BranchPattern` (git.rs:58-64). -/
structure BranchPattern where
  workspace : List Nat
  username : List Nat
  machine : List Nat
  feature_type : FeatureType
  description : Option (List Nat)
deriving DecidableEq

/-- `BranchConfig` (git.rs:106-112). -/
structure BranchConfig where
  auto_create_branches : Bool
  default_feature_type : FeatureType
  branch_prefix_pattern : List Nat
  max_branch_name_length : Nat
  allowed_feature_types : List FeatureType
deriving DecidableEq

/-- `impl Default for BranchConfig` (git.rs:114-131). -/
def BranchConfig.default : BranchConfig where
  auto_create_branches := true
  default_feature_type := .Feature
  branch_prefix_pattern := rstr ("{workspace}/{username}-{machine}/{feature}")
  max_branch_name_length := 100
  allowed_feature_types :=
    [.Feature, .Bugfix, .Hotfix, .Experiment, .Refactor, .Documentation]

/-- `SystemInfo` (git.rs:98-102). -/
structure SystemInfo where
  username : List Nat
  machine_name : List Nat
  os_type : List Nat
deriving DecidableEq

/-- `BranchGenerator` (git.rs:165-168). -/
structure BranchGenerator where
  config : BranchConfig
  system_info : SystemInfo
deriving DecidableEq

/-- `BranchGenerator::validate_branch_name` (git.rs:219-239). -/
def BranchGenerator.validate_branch_name (name : List Nat) : Except (List Nat) Unit :=
  if name = [] then .error (rstr ("Branch name cannot be empty"))
  else if startsWithHyphen name || endsWithHyphen name then
    .error (rstr ("Branch name cannot start or end with hyphen"))
  else if containsSeq (rstr ("..")) name || containsSeq (rstr ("//")) name then
    .error (rstr ("Branch name cannot contain consecutive dots or slashes"))
  else if name.any isForbiddenChar then
    .error (rstr ("Branch name contains forbidden characters"))
  else .ok ()

/-- Template filling and description suffix of
`BranchGenerator::generate_branch_name` (git.rs:177-191): the branch
name as assembled just before the length check. -/
def assembled_name (cfg : BranchConfig) (pat : BranchPattern) : List Nat :=
  let n1 := replaceList cfg.branch_prefix_pattern (rstr ("{workspace}"))
    (sanitize_name pat.workspace)
  let n2 := replaceList n1 (rstr ("{username}")) (sanitize_name pat.username)
  let n3 := replaceList n2 (rstr ("{machine}")) (sanitize_name pat.machine)
  let n4 := replaceList n3 (rstr ("{feature}")) (featureTypeToString pat.feature_type)
  match pat.description with
  | some d =>
    let sd := sanitize_name d
    if sd ≠ [] then n4 ++ hyphenChar :: sd else n4
  | none => n4

/-- Length cap of `generate_branch_name` (git.rs:193-198): byte-indexed
truncation (panic modelled as `none`) followed by stripping trailing
hyphens. -/
def truncated_name (cfg : BranchConfig) (pat : BranchPattern) : Option (List Nat) :=
  let n := assembled_name cfg pat
  if byteLen n > cfg.max_branch_name_length then
    (truncateBytes n cfg.max_branch_name_length).map trimEndHyphens
  else some n

/-- `BranchGenerator::generate_branch_name` (git.rs:176-204).
`none` models a Rust panic (from byte-indexed `String::truncate`);
`some (.error e)` is the `Err` return; `some (.ok name)` the `Ok`. -/
def BranchGenerator.generate_branch_name (g : BranchGenerator) (pat : BranchPattern) :
    Option (Except (List Nat) (List Nat)) :=
  match truncated_name g.config pat with
  | none => none
  | some name =>
    match BranchGenerator.validate_branch_name name with
    | .ok _ => some (.ok name)
    | .error e => some (.error e)

/-- The branch-name grammar enforced by `validate_branch_name`:
non-empty, no leading/trailing hyphen, no `..` or `//`, none of the
Git-forbidden characters. -/
def Grammar (name : List Nat) : Prop :=
  name ≠ [] ∧ startsWithHyphen name = false ∧ endsWithHyphen name = false ∧
  containsSeq (rstr ("..")) name = false ∧ containsSeq (rstr ("//")) name = false ∧
  name.any isForbiddenChar = false

instance (name : List Nat) : Decidable (Grammar name) := by
  unfold Grammar; infer_instance

/-! ## RepositoryDriver: clone and authentication negotiation
(`src-tauri/src/services/git_service.rs`) -/

/-- `CloneResult` (git.rs:13-17). -/
structure CloneResult where
  success : Bool
  path : List Nat
  message : List Nat
deriving DecidableEq

/-- The credential kinds the callback of `GitService::clone_repository`
can construct.  The credential payloads (usernames, key paths, secrets)
do not influence the negotiation control flow, so they are modelled as
tags. -/
inductive Cred where
  | sshAgent
  | sshKeyFile (idx : Nat)
  | userpass
deriving DecidableEq

/-- The environment the authentication callback observes: which
credential types the remote advertises, whether the SSH agent answers,
which of the three conventional on-disk key pairs (`id_ed25519`,
`id_rsa`, `id_ecdsa`) exist and construct successfully, and whether
inline credentials were supplied.  `Cred::userpass_plaintext`
construction is modelled as always succeeding. -/
structure AuthEnv where
  allowed_ssh_key : Bool
  allowed_userpass : Bool
  agent_ok : Bool
  key1_exists : Bool
  key1_ok : Bool
  key2_exists : Bool
  key2_ok : Bool
  key3_exists : Bool
  key3_ok : Bool
  has_inline_creds : Bool
deriving DecidableEq

/-- The mutable cells captured by the callback closure
(git_service.rs:30-35): the global attempt counter and the
per-strategy "already tried" set. -/
structure AuthState where
  attempts : Nat
  tried_agent : Bool
  tried_keys : Bool
  tried_userpass : Bool
deriving DecidableEq

/-- The fresh negotiation state built for each clone. -/
def initialAuthState : AuthState :=
  { attempts := 0, tried_agent := false, tried_keys := false, tried_userpass := false }

/-- The on-disk key loop of git_service.rs:83-107: first key (in the
fixed order ed25519, rsa, ecdsa) whose private file exists and whose
credential construction succeeds. -/
def firstUsableKey (env : AuthEnv) : Option Cred :=
  if env.key1_exists && env.key1_ok then some (Cred.sshKeyFile 1)
  else if env.key2_exists && env.key2_ok then some (Cred.sshKeyFile 2)
  else if env.key3_exists && env.key3_ok then some (Cred.sshKeyFile 3)
  else none

/-- The credentials callback of `GitService::clone_repository`
(git_service.rs:38-122): bump the global attempt counter, abort past 3,
then try SSH agent (first attempt only), on-disk SSH keys (once), and
inline plaintext credentials (once), in that order, updating the
"already tried" set as in the source. -/
def credCallback (env : AuthEnv) (st0 : AuthState) : AuthState × Except (List Nat) Cred :=
  let attempt_num := st0.attempts + 1
  let st1 : AuthState := { st0 with attempts := attempt_num }
  if 3 < attempt_num then
    (st1, .error (rstr ("Authentication failed after multiple attempts")))
  else
    let tryAgent := env.allowed_ssh_key && attempt_num == 1 && !st1.tried_agent
    let st2 := if tryAgent then { st1 with tried_agent := true } else st1
    if tryAgent && env.agent_ok then
      (st2, .ok Cred.sshAgent)
    else
      let tryKeys := env.allowed_ssh_key && !st2.tried_keys
      let st3 := if tryKeys then { st2 with tried_keys := true } else st2
      match (if tryKeys then firstUsableKey env else none) with
      | some cred => (st3, .ok cred)
      | none =>
        let tryPass := env.allowed_userpass && !st3.tried_userpass
        let st4 := if tryPass then { st3 with tried_userpass := true } else st3
        if tryPass && env.has_inline_creds then
          (st4, .ok Cred.userpass)
        else
          (st4, .error (rstr ("No authentication method available")))

/-- The engine-side negotiation loop against a remote that rejects every
offered credential: libgit2 re-invokes the credentials callback after
each rejected credential and aborts the fetch when the callback returns
an error.  Returns the number of callback invocations and the final
error message.  `fuel` bounds the loop; the attempt cap makes 5 always
sufficient from the initial state. -/
def negotiateGo (env : AuthEnv) : Nat → AuthState → Nat × List Nat
  | 0, _ => (0, [])
  | fuel + 1, st =>
    match credCallback env st with
    | (_, .error e) => (1, e)
    | (st2, .ok _) =>
      let r := negotiateGo env fuel st2
      (r.1 + 1, r.2)

/-- Full negotiation of one clone against an all-rejecting remote:
invocation count and final error. -/
def runRejecting (env : AuthEnv) : Nat × List Nat :=
  negotiateGo env 5 initialAuthState

/-- `GitService::clone_repository` (git_service.rs:136-154), as a
function of the engine-level outcome of `builder.clone`: both outcomes
are mapped to an `Ok` carrying a `CloneResult` payload; no path of the
function returns a hard error. -/
def GitService.clone_repository (url path : List Nat) (engine : Except (List Nat) Unit) :
    Except (List Nat) CloneResult :=
  match engine with
  | .ok _ =>
    .ok { success := true, path := path,
          message := rstr ("Repository cloned successfully") }
  | .error e =>
    .ok { success := false, path := path,
          message := rstr ("Failed to clone repository: ") ++ e }

/-! ## BranchAutomationService
(`src-tauri/src/services/git_branch_service.rs`) -/

/-- `BranchCreateRequest` (git.rs:148-152). -/
structure BranchCreateRequest where
  pattern : BranchPattern
  base_branch : Option (List Nat)
  auto_switch : Bool
deriving DecidableEq

/-- `BranchCreateResult` (git.rs:156-161). -/
structure BranchCreateResult where
  branch_name : List Nat
  created : Bool
  switched : Bool
  message : List Nat
deriving DecidableEq

/-- The serialized form a `BranchPattern` takes in the `pattern_json`
column.  `serde_json` serialization round-trips, and other strings may
fail to deserialize; the blob type models exactly that: `good p`
deserializes to `p`, `bad s` fails to deserialize. -/
inductive PatternBlob where
  | good (p : BranchPattern)
  | bad (s : List Nat)
deriving DecidableEq

/-- `serde_json::to_string` on a `BranchPattern`. -/
def serializePattern (p : BranchPattern) : PatternBlob := .good p

/-- `serde_json::from_str::<BranchPattern>`. -/
def parsePattern : PatternBlob → Option BranchPattern
  | .good p => some p
  | .bad _ => none

/-- One row of the `branch_history` table
(git_branch_service.rs:296-301). -/
structure HistoryRow where
  branch_name : List Nat
  pattern_json : PatternBlob
  created_at : Nat
deriving DecidableEq

/-- The externally observable git state the service drives through the
`git` CLI, together with failure-injection flags for the two checkout
commands (a real `git checkout` can fail for environmental reasons; a
failed checkout leaves the repository state unchanged). -/
structure GitWorld where
  branches : List (List Nat)
  current : List Nat
  show_current_fails : Bool
  checkout_new_fails : Bool
  checkout_back_fails : Bool
  checkout_err : List Nat
deriving DecidableEq

/-- `git branch --list <name>` has non-empty stdout iff the branch
exists (git_branch_service.rs:170-178). -/
def gitBranchList (w : GitWorld) (name : List Nat) : Bool :=
  w.branches.contains name

/-- `git checkout -b <name> <base>` (git_branch_service.rs:124-128):
on success the branch is created and becomes current. -/
def gitCheckoutNew (w : GitWorld) (name : List Nat) : Bool × GitWorld :=
  if w.checkout_new_fails then (false, w)
  else (true, { w with branches := name :: w.branches, current := name })

/-- `git checkout <base>` (git_branch_service.rs:145-149): on success
the base branch becomes current again. -/
def gitCheckoutBack (w : GitWorld) (base : List Nat) : Bool × GitWorld :=
  if w.checkout_back_fails then (false, w)
  else (true, { w with current := base })

/-- Message of the early "already exists" return
(git_branch_service.rs:113). -/
def msgAlreadyExists (name : List Nat) : List Nat :=
  rstr ("Branch ") ++ aposChar :: name ++ aposChar :: rstr (" already exists")

/-- Message of the checkout-b failure return (git_branch_service.rs:136). -/
def msgCreateFailed (err : List Nat) : List Nat :=
  rstr ("Failed to create branch: ") ++ err

/-- Message of the created-and-switched outcome (git_branch_service.rs:141). -/
def msgCreatedSwitched (name : List Nat) : List Nat :=
  rstr ("Created and switched to branch ") ++ aposChar :: name ++ [aposChar]

/-- Message of the created-but-stayed outcome (git_branch_service.rs:153). -/
def msgStayed (name base : List Nat) : List Nat :=
  rstr ("Created branch ") ++ aposChar :: name ++ aposChar :: rstr (" (stayed on ") ++
    aposChar :: base ++ aposChar :: rstr (")")

/-- `GitBranchService::save_branch_creation`
(git_branch_service.rs:288-307): append one row with the branch name,
the serialized pattern, and the current timestamp. -/
def GitBranchService.save_branch_creation (db : List HistoryRow) (branch_name : List Nat)
    (pattern : BranchPattern) (now : Nat) : List HistoryRow :=
  db ++ [{ branch_name := branch_name, pattern_json := serializePattern pattern,
           created_at := now }]

/-- The history row recorded for one successful branch creation. -/
def historyRowOf (name : List Nat) (pat : BranchPattern) (now : Nat) : HistoryRow :=
  { branch_name := name, pattern_json := serializePattern pat, created_at := now }

/-- `GitBranchService::create_branch` (git_branch_service.rs:99-167),
with the repository state, history table and clock passed explicitly.
`none` models a panic propagated from generation; `some (.error e)` a
hard error (`?`); `some (.ok (result, world, db))` the `Ok` return.
The history insert is modelled as the pure append of
`save_branch_creation` (a failing insert would propagate as a hard
error; store failures are outside this model). -/
def GitBranchService.create_branch (g : BranchGenerator) (w : GitWorld)
    (db : List HistoryRow) (now : Nat) (req : BranchCreateRequest) :
    Option (Except (List Nat) (BranchCreateResult × GitWorld × List HistoryRow)) :=
  match g.generate_branch_name req.pattern with
  | none => none
  | some (.error e) => some (.error e)
  | some (.ok branch_name) =>
    if gitBranchList w branch_name then
      some (.ok ({ branch_name := branch_name, created := false, switched := false,
                   message := msgAlreadyExists branch_name }, w, db))
    else if w.show_current_fails then
      some (.error (rstr ("Failed to get current branch")))
    else
      let base := req.base_branch.getD w.current
      match gitCheckoutNew w branch_name with
      | (false, w1) =>
        some (.ok ({ branch_name := branch_name, created := false, switched := false,
                     message := msgCreateFailed w.checkout_err }, w1, db))
      | (true, w1) =>
        let step :=
          if !req.auto_switch then
            match gitCheckoutBack w1 base with
            | (true, w2) => (false, msgStayed branch_name base, w2)
            | (false, w2) => (true, msgCreatedSwitched branch_name, w2)
          else (true, msgCreatedSwitched branch_name, w1)
        let db2 := GitBranchService.save_branch_creation db branch_name req.pattern now
        some (.ok ({ branch_name := branch_name, created := true, switched := step.1,
                     message := step.2.1 }, step.2.2, db2))

/-- Descending insertion by `created_at`: the executable model of the
SQL `ORDER BY created_at DESC`. -/
def insertDesc (r : HistoryRow) : List HistoryRow → List HistoryRow
  | [] => [r]
  | x :: xs => if x.created_at ≤ r.created_at then r :: x :: xs else x :: insertDesc r xs

/-- Sort the history rows by `created_at`, most recent first. -/
def sortByCreatedDesc : List HistoryRow → List HistoryRow
  | [] => []
  | x :: xs => insertDesc x (sortByCreatedDesc xs)

/-- The row-to-result projection of the read loop
(git_branch_service.rs:322-331): a row whose pattern deserializes yields
a `(branch_name, pattern, created_at)` triple, any other row is skipped. -/
def histEntry (r : HistoryRow) : Option (List Nat × BranchPattern × Nat) :=
  (parsePattern r.pattern_json).map (fun p => (r.branch_name, p, r.created_at))

/-- `GitBranchService::get_branch_history` (git_branch_service.rs:310-334):
`SELECT ... ORDER BY created_at DESC LIMIT ?` with the limit defaulting
to 50, then deserialize each row, silently skipping failures.  A
negative limit means no limit in SQLite. -/
def GitBranchService.get_branch_history (db : List HistoryRow) (limit : Option Int) :
    List (List Nat × BranchPattern × Nat) :=
  let lim : Int := limit.getD 50
  let sorted := sortByCreatedDesc db
  let taken := if lim < 0 then sorted else sorted.take lim.toNat
  taken.filterMap histEntry

/-! ## Concrete fixtures used by witnesses and counterexamples -/

/-- A generator with the default configuration (the test fixture of
git.rs:257-265). -/
def exampleGenerator : BranchGenerator where
  config := BranchConfig.default
  system_info :=
    { username := rstr ("john.doe"), machine_name := rstr ("MacBook-Pro"),
      os_type := rstr ("macOS") }

/-- The pattern of the template round-trip property (git.rs:270-276). -/
def examplePattern : BranchPattern where
  workspace := rstr ("ecommerce-api")
  username := rstr ("john.doe")
  machine := rstr ("MacBook-Pro")
  feature_type := .Feature
  description := some (rstr ("add payment endpoints"))

/-- The branch name generated from `examplePattern` under the default
configuration. -/
def exampleBranchName : List Nat :=
  rstr ("ecommerce-api/john-doe-macbook-pro/feature-add-payment-endpoints")

/-- A generator whose configuration forces truncation: template is just
the workspace and the cap is 5 bytes. -/
def truncGenerator : BranchGenerator where
  config :=
    { BranchConfig.default with
        branch_prefix_pattern := rstr ("{workspace}"), max_branch_name_length := 5 }
  system_info := exampleGenerator.system_info

/-- A pattern whose assembled name exceeds the 5-byte cap. -/
def truncPattern : BranchPattern where
  workspace := rstr ("abcdefgh")
  username := rstr ("u")
  machine := rstr ("m")
  feature_type := .Feature
  description := none

/-- A generator for the panic scenario: 2-byte cap. -/
def panicGenerator : BranchGenerator where
  config :=
    { BranchConfig.default with
        branch_prefix_pattern := rstr ("{workspace}"), max_branch_name_length := 2 }
  system_info := exampleGenerator.system_info

/-- A pattern whose sanitized workspace is `aé` (code points 97, 233):
3 UTF-8 bytes, and byte index 2 falls inside the 2-byte `é`. -/
def panicPattern : BranchPattern where
  workspace := [97, 233]
  username := rstr ("u")
  machine := rstr ("m")
  feature_type := .Feature
  description := none

/-- An authentication environment in which every strategy is available:
SSH key and plaintext both advertised, agent answers, the first on-disk
key exists and constructs, inline credentials supplied. -/
def envFull : AuthEnv where
  allowed_ssh_key := true
  allowed_userpass := true
  agent_ok := true
  key1_exists := true
  key1_ok := true
  key2_exists := true
  key2_ok := true
  key3_exists := true
  key3_ok := true
  has_inline_creds := true

/-- A healthy repository on `main` with no injected failures. -/
def exampleWorld : GitWorld where
  branches := [rstr ("main")]
  current := rstr ("main")
  show_current_fails := false
  checkout_new_fails := false
  checkout_back_fails := false
  checkout_err := []

/-- Like `exampleWorld` but the switch-back checkout fails. -/
def switchFailWorld : GitWorld where
  branches := [rstr ("main")]
  current := rstr ("main")
  show_current_fails := false
  checkout_new_fails := false
  checkout_back_fails := true
  checkout_err := []

/-- A request with `auto_switch` enabled. -/
def exampleRequest : BranchCreateRequest where
  pattern := examplePattern
  base_branch := none
  auto_switch := true

/-- A request with `auto_switch` disabled. -/
def noSwitchRequest : BranchCreateRequest where
  pattern := examplePattern
  base_branch := none
  auto_switch := false

/-- Three history rows with strictly increasing timestamps, all with
deserializable patterns. -/
def exampleHistoryDb : List HistoryRow :=
  [{ branch_name := rstr ("b1"), pattern_json := .good examplePattern, created_at := 1 },
   { branch_name := rstr ("b2"), pattern_json := .good examplePattern, created_at := 2 },
   { branch_name := rstr ("b3"), pattern_json := .good examplePattern, created_at := 3 }]

/-- A character that survives sanitization unchanged: alphanumeric or
underscore, fixed by lowercasing and by the sanitization map, and not a
hyphen.  Every character inside a segment of a sanitized name is good. -/
def goodChar (c : Nat) : Prop :=
  (rust_is_alphanumeric c = true ∨ c = 95) ∧ toLowerChar c = c ∧
  sanitizeChar c = c ∧ c ≠ hyphenChar

/-! ## Helper lemmas -/

theorem validate_ok_iff (name : List Nat) :
    BranchGenerator.validate_branch_name name = .ok () ↔ Grammar name := by
  unfold BranchGenerator.validate_branch_name Grammar
  split_ifs with h1 h2 h3 h4
  · exact iff_of_false (by simp) (by simp [h1])
  · refine iff_of_false (by simp) ?_
    rcases Bool.or_eq_true_iff.mp h2 with h | h <;> simp [h]
  · refine iff_of_false (by simp) ?_
    rcases Bool.or_eq_true_iff.mp h3 with h | h <;> simp [h]
  · exact iff_of_false (by simp) (by simp [h4])
  · refine iff_of_true rfl ?_
    simp only [Bool.or_eq_true, not_or, Bool.not_eq_true] at h2 h3 h4
    exact ⟨h1, h2.1, h2.2, h3.1, h3.2, h4⟩

theorem generate_ok_elim (g : BranchGenerator) (pat : BranchPattern) (name : List Nat)
    (h : g.generate_branch_name pat = some (.ok name)) :
    truncated_name g.config pat = some name ∧
    BranchGenerator.validate_branch_name name = .ok () := by
  unfold BranchGenerator.generate_branch_name at h
  cases ht : truncated_name g.config pat with
  | none => exact Option.noConfusion (ht ▸ h)
  | some n =>
    simp only [ht] at h
    cases hv : BranchGenerator.validate_branch_name n with
    | ok u =>
      simp only [hv] at h
      simp only [Option.some_inj, Except.ok.injEq] at h
      subst h
      exact ⟨rfl, by cases u; exact hv⟩
    | error e =>
      simp only [hv] at h
      exact Except.noConfusion (Option.some_inj.mp h)

theorem truncateBytes_byteLen_le :
    ∀ (s : List Nat) (n : Nat) (t : List Nat), truncateBytes s n = some t → byteLen t ≤ n := by
  intro s
  induction s with
  | nil =>
    intro n t h
    unfold truncateBytes at h
    simp only [Option.some_inj] at h
    subst h
    simp [byteLen]
  | cons c s ih =>
    intro n t h
    unfold truncateBytes at h
    split_ifs at h with h0 hsz
    · simp only [Option.some_inj] at h
      subst h
      simp [byteLen]
    · cases hrec : truncateBytes s (n - charUtf8Size c) with
      | none => rw [hrec] at h; cases h
      | some t2 =>
        rw [hrec] at h
        simp only [Option.map_some', Option.some_inj] at h
        subst h
        have hle := ih (n - charUtf8Size c) t2 hrec
        simp only [byteLen] at hle
        simp only [byteLen, List.map_cons, List.sum_cons]
        omega

theorem byteLen_append (a b : List Nat) : byteLen (a ++ b) = byteLen a + byteLen b := by
  simp [byteLen, List.sum_append]

theorem byteLen_reverse (s : List Nat) : byteLen s.reverse = byteLen s := by
  simp [byteLen, List.map_reverse, List.sum_reverse]

theorem byteLen_trimEndHyphens_le (s : List Nat) : byteLen (trimEndHyphens s) ≤ byteLen s := by
  unfold trimEndHyphens
  rw [byteLen_reverse]
  have hsplit := List.takeWhile_append_dropWhile (fun c => c == hyphenChar) s.reverse
  have : byteLen s.reverse = byteLen (s.reverse.takeWhile (fun c => c == hyphenChar)) +
      byteLen (s.reverse.dropWhile (fun c => c == hyphenChar)) := by
    conv_lhs => rw [← hsplit]
    exact byteLen_append _ _
  rw [← byteLen_reverse s, this]
  omega

/-! ## Claim theorems -/

/-- C2: with the default `BranchConfig` (template
`{workspace}/{username}-{machine}/{feature}`, max length 100) and the
pattern (workspace `ecommerce-api`, username `john.doe`, machine
`MacBook-Pro`, feature type Feature, description
`add payment endpoints`), `generate_branch_name` returns `Ok` with
exactly `ecommerce-api/john-doe-macbook-pro/feature-add-payment-endpoints`. -/
theorem c2_template_round_trip :
    BranchGenerator.generate_branch_name exampleGenerator examplePattern =
      some (Except.ok
        (rstr ("ecommerce-api/john-doe-macbook-pro/feature-add-payment-endpoints"))) := by
  rfl

/-- C3: every branch name returned `Ok` by `generate_branch_name`
satisfies the grammar (non-empty, no leading or trailing hyphen, no
`..`, no `//`, none of the forbidden characters), and
`validate_branch_name` accepts a name exactly when the grammar holds,
so a violating name makes generation return an error. -/
theorem c3_grammar_validity :
    (∀ (g : BranchGenerator) (pat : BranchPattern) (name : List Nat),
        g.generate_branch_name pat = some (.ok name) → Grammar name) ∧
    (∀ name : List Nat,
        BranchGenerator.validate_branch_name name = .ok () ↔ Grammar name) := by
  refine ⟨?_, validate_ok_iff⟩
  intro g pat name h
  exact (validate_ok_iff name).mp (generate_ok_elim g pat name h).2

/-- Witness for C3 at the concrete round-trip input. -/
theorem c3_grammar_validity_witness :
    Grammar (rstr ("ecommerce-api/john-doe-macbook-pro/feature-add-payment-endpoints")) :=
  c3_grammar_validity.1 exampleGenerator examplePattern
    (rstr ("ecommerce-api/john-doe-macbook-pro/feature-add-payment-endpoints")) (by rfl)

/-- C4: whenever the assembled branch name exceeds
`max_branch_name_length` and generation succeeds, the returned name has
byte length at most `max_branch_name_length` and does not end with a
hyphen. -/
theorem c4_truncation (g : BranchGenerator) (pat : BranchPattern) (name : List Nat)
    (hover : byteLen (assembled_name g.config pat) > g.config.max_branch_name_length)
    (hok : g.generate_branch_name pat = some (.ok name)) :
    byteLen name ≤ g.config.max_branch_name_length ∧ endsWithHyphen name = false := by
  obtain ⟨ht, hv⟩ := generate_ok_elim g pat name hok
  have hgram := (validate_ok_iff name).mp hv
  refine ⟨?_, hgram.2.2.1⟩
  unfold truncated_name at ht
  rw [if_pos hover] at ht
  cases htr : truncateBytes (assembled_name g.config pat) g.config.max_branch_name_length with
  | none => rw [htr] at ht; cases ht
  | some t =>
    rw [htr] at ht
    simp only [Option.map_some', Option.some_inj] at ht
    subst ht
    calc byteLen (trimEndHyphens t) ≤ byteLen t := byteLen_trimEndHyphens_le t
      _ ≤ g.config.max_branch_name_length := truncateBytes_byteLen_le _ _ _ htr

/-- Witness for C4: a config with cap 5 and a pattern assembling to 8
bytes; generation returns `abcde`. -/
theorem c4_truncation_witness :
    byteLen (rstr ("abcde")) ≤ truncGenerator.config.max_branch_name_length ∧
    endsWithHyphen (rstr ("abcde")) = false :=
  c4_truncation truncGenerator truncPattern (rstr ("abcde")) (by decide) (by rfl)

/-- C9: `clone_repository` is total in the `Result` sense: for every
url, destination path, and engine-level outcome, it returns `Ok`
carrying a `CloneResult` whose `success` field mirrors the engine
outcome; no path returns a hard error. -/
theorem c9_clone_repository_total (url path : List Nat) (engine : Except (List Nat) Unit) :
    ∃ r : CloneResult, GitService.clone_repository url path engine = .ok r ∧
      r.path = path ∧
      r.success = (match engine with | .ok _ => true | .error _ => false) := by
  cases engine with
  | ok u => exact ⟨_, rfl, rfl, rfl⟩
  | error e => exact ⟨_, rfl, rfl, rfl⟩

/-- C10: `generate_branch_name` is not total: the sanitized workspace
`aé` is preserved by `sanitize_name` (non-ASCII alphanumerics survive),
the assembled name is 3 bytes against a 2-byte cap, and the byte-indexed
truncation lands inside the 2-byte `é`, so generation panics (modelled
as `none`) instead of returning `Ok` or `Err`. -/
theorem c10_generate_branch_name_panics :
    sanitize_name panicPattern.workspace = panicPattern.workspace ∧
    byteLen (assembled_name panicGenerator.config panicPattern) >
      panicGenerator.config.max_branch_name_length ∧
    BranchGenerator.generate_branch_name panicGenerator panicPattern = none := by
  refine ⟨by rfl, by decide, by rfl⟩

/-! ## Sanitize idempotence (C5) -/

theorem toLowerChar_idem (c : Nat) : toLowerChar (toLowerChar c) = toLowerChar c := by
  unfold toLowerChar
  split_ifs <;> omega

theorem sanitizeChar_toLower_cases (c : Nat) :
    sanitizeChar (toLowerChar c) = hyphenChar ∨ goodChar (sanitizeChar (toLowerChar c)) := by
  by_cases hg : (rust_is_alphanumeric (toLowerChar c) || toLowerChar c == hyphenChar ||
      toLowerChar c == 95) = true
  · have hval : sanitizeChar (toLowerChar c) = toLowerChar c := by
      unfold sanitizeChar; rw [if_pos hg]
    by_cases hhy : toLowerChar c = hyphenChar
    · left; rw [hval, hhy]
    · right
      rw [hval]
      refine ⟨?_, toLowerChar_idem c, hval, hhy⟩
      simp only [Bool.or_eq_true, beq_iff_eq] at hg
      rcases hg with (h | h) | h
      · exact Or.inl h
      · exact absurd h hhy
      · exact Or.inr h
  · left
    unfold sanitizeChar
    rw [if_neg (by exact fun h => hg h)]

theorem splitOnChar_ne_nil (sep : Nat) (l : List Nat) : splitOnChar sep l ≠ [] := by
  induction l with
  | nil => simp [splitOnChar]
  | cons c rest ih =>
    unfold splitOnChar
    cases h : splitOnChar sep rest with
    | nil => exact absurd h ih
    | cons s ss => split_ifs <;> simp

theorem mem_splitOnChar (sep : Nat) :
    ∀ (l : List Nat) (seg : List Nat), seg ∈ splitOnChar sep l → ∀ c ∈ seg, c ∈ l ∧ c ≠ sep := by
  intro l
  induction l with
  | nil =>
    intro seg hseg c hc
    simp only [splitOnChar, List.mem_singleton] at hseg
    subst hseg
    cases hc
  | cons a rest ih =>
    intro seg hseg c hc
    cases hr : splitOnChar sep rest with
    | nil => exact absurd hr (splitOnChar_ne_nil sep rest)
    | cons s ss =>
      simp only [splitOnChar, hr] at hseg
      by_cases ha : a = sep
      · rw [if_pos ha] at hseg
        rcases List.mem_cons.mp hseg with h | h
        · subst h; cases hc
        · have := ih seg (hr ▸ h) c hc
          exact ⟨List.mem_cons_of_mem a this.1, this.2⟩
      · rw [if_neg ha] at hseg
        rcases List.mem_cons.mp hseg with h | h
        · subst h
          rcases List.mem_cons.mp hc with h | h
          · rw [h]
            exact ⟨List.mem_cons_self a rest, ha⟩
          · have := ih s (hr ▸ List.mem_cons_self s ss) c h
            exact ⟨List.mem_cons_of_mem a this.1, this.2⟩
        · have := ih seg (hr ▸ List.mem_cons_of_mem s h) c hc
          exact ⟨List.mem_cons_of_mem a this.1, this.2⟩

theorem splitOnChar_no_sep (sep : Nat) :
    ∀ (l : List Nat), (∀ c ∈ l, c ≠ sep) → splitOnChar sep l = [l] := by
  intro l
  induction l with
  | nil => intro _; rfl
  | cons a rest ih =>
    intro h
    simp only [splitOnChar, ih (fun c hc => h c (List.mem_cons_of_mem a hc)),
      if_neg (h a (List.mem_cons_self a rest))]

theorem splitOnChar_append_sep (sep : Nat) :
    ∀ (s t : List Nat), (∀ c ∈ s, c ≠ sep) → splitOnChar sep (s ++ sep :: t) = s :: splitOnChar sep t := by
  intro s
  induction s with
  | nil =>
    intro t _
    cases hr : splitOnChar sep t with
    | nil => exact absurd hr (splitOnChar_ne_nil sep t)
    | cons u us =>
      rw [List.nil_append]
      simp [splitOnChar, hr]
  | cons a s ih =>
    intro t h
    rw [List.cons_append]
    simp only [splitOnChar, ih t (fun c hc => h c (List.mem_cons_of_mem a hc)),
      if_neg (h a (List.mem_cons_self a s))]

theorem joinHyphen_cons (s : List Nat) (rest : List (List Nat)) (h : rest ≠ []) :
    joinHyphen (s :: rest) = s ++ hyphenChar :: joinHyphen rest := by
  cases rest with
  | nil => exact absurd rfl h
  | cons t ts => rfl

theorem splitOnChar_joinHyphen :
    ∀ (segs : List (List Nat)),
      (∀ s ∈ segs, s ≠ [] ∧ ∀ c ∈ s, c ≠ hyphenChar) → segs ≠ [] →
      splitOnChar hyphenChar (joinHyphen segs) = segs := by
  intro segs
  induction segs with
  | nil => intro _ h; exact absurd rfl h
  | cons s rest ih =>
    intro hgood _
    cases hr : rest with
    | nil =>
      simp only [joinHyphen]
      exact splitOnChar_no_sep hyphenChar s (hgood s (List.mem_cons_self s rest)).2
    | cons t ts =>
      rw [← hr, joinHyphen_cons s rest (by rw [hr]; simp),
        splitOnChar_append_sep hyphenChar s (joinHyphen rest)
          (hgood s (List.mem_cons_self s rest)).2,
        ih (fun u hu => hgood u (List.mem_cons_of_mem s hu)) (by rw [hr]; simp)]

theorem mem_joinHyphen :
    ∀ (segs : List (List Nat)) (c : Nat), c ∈ joinHyphen segs →
      c = hyphenChar ∨ ∃ s ∈ segs, c ∈ s := by
  intro segs
  induction segs with
  | nil => intro c hc; cases hc
  | cons s rest ih =>
    intro c hc
    by_cases hrest : rest = []
    · subst hrest
      simp only [joinHyphen] at hc
      exact Or.inr ⟨s, by simp, hc⟩
    · rw [joinHyphen_cons s rest hrest] at hc
      rcases List.mem_append.mp hc with h | h
      · exact Or.inr ⟨s, List.mem_cons_self s rest, h⟩
      · rcases List.mem_cons.mp h with h | h
        · exact Or.inl h
        · rcases ih c h with h | ⟨u, hu, hcu⟩
          · exact Or.inl h
          · exact Or.inr ⟨u, List.mem_cons_of_mem s hu, hcu⟩

theorem map_fixed {f : Nat → Nat} :
    ∀ (l : List Nat), (∀ c ∈ l, f c = c) → l.map f = l := by
  intro l
  induction l with
  | nil => intro _; rfl
  | cons a rest ih =>
    intro h
    rw [List.map_cons, h a (List.mem_cons_self a rest),
      ih (fun c hc => h c (List.mem_cons_of_mem a hc))]

/-- C5: `sanitize_name` is idempotent: sanitizing an already sanitized
string leaves it unchanged, for every input string. -/
theorem c5_sanitize_idempotent (x : List Nat) :
    sanitize_name (sanitize_name x) = sanitize_name x := by
  have hM : ∀ c ∈ (x.map toLowerChar).map sanitizeChar,
      c = hyphenChar ∨ goodChar c := by
    intro c hc
    rcases List.mem_map.mp hc with ⟨b, hb, hbc⟩
    rcases List.mem_map.mp hb with ⟨a, _, hab⟩
    subst hbc; subst hab
    exact sanitizeChar_toLower_cases a
  set segs := ((splitOnChar hyphenChar ((x.map toLowerChar).map sanitizeChar)).filter
      (fun s => !s.isEmpty)) with hsegs
  have hseg_props : ∀ s ∈ segs, s ≠ [] ∧ ∀ c ∈ s, c ≠ hyphenChar ∧ goodChar c := by
    intro s hs
    rw [hsegs, List.mem_filter] at hs
    obtain ⟨hmem, hne⟩ := hs
    refine ⟨by simpa using hne, ?_⟩
    intro c hc
    have h1 := mem_splitOnChar hyphenChar _ s hmem c hc
    rcases hM c h1.1 with h | h
    · exact absurd h h1.2
    · exact ⟨h1.2, h⟩
  have hJ : ∀ c ∈ joinHyphen segs, c = hyphenChar ∨ goodChar c := by
    intro c hc
    rcases mem_joinHyphen segs c hc with h | ⟨s, hs, hcs⟩
    · exact Or.inl h
    · exact Or.inr ((hseg_props s hs).2 c hcs).2
  have hlow : ∀ c ∈ joinHyphen segs, toLowerChar c = c := by
    intro c hc
    rcases hJ c hc with h | h
    · rw [h]; rfl
    · exact h.2.1
  have hsan : ∀ c ∈ joinHyphen segs, sanitizeChar c = c := by
    intro c hc
    rcases hJ c hc with h | h
    · rw [h]; rfl
    · exact h.2.2.1
  show sanitize_name (joinHyphen segs) = joinHyphen segs
  unfold sanitize_name
  rw [map_fixed (joinHyphen segs) hlow, map_fixed (joinHyphen segs) hsan]
  by_cases hempty : segs = []
  · rw [hempty]
    rfl
  · rw [splitOnChar_joinHyphen segs
      (fun s hs => ⟨(hseg_props s hs).1, fun c hc => ((hseg_props s hs).2 c hc).1⟩) hempty]
    rw [List.filter_eq_self.mpr
      (fun s hs => by simpa using (hseg_props s hs).1)]

/-! ## Authentication negotiation bound (C1) -/

/-- C1 counterexample: with every strategy available (agent answers, an
on-disk key constructs, inline credentials supplied) and a remote that
rejects every offered credential, the credentials callback is invoked 4
times, not 3: the first three invocations each offer a credential and
the 4th invocation is made and aborts the negotiation with the
"Authentication failed after multiple attempts" error. -/
theorem c1_counterexample :
    (runRejecting envFull).1 = 4 ∧ (runRejecting envFull).1 ≠ 3 ∧
    (runRejecting envFull).2 = rstr ("Authentication failed after multiple attempts") := by
  refine ⟨by rfl, by decide, by rfl⟩

/-- C1 (amended): for every clone whose remote rejects every offered
credential, the callback is invoked at least once and at most 4 times
(so at most 3 credentials are ever offered); the negotiation ends either
with "No authentication method available" after at most 3 invocations,
or with "Authentication failed after multiple attempts" on exactly the
4th invocation (the hard cap of the global attempt counter is 3); and
the clone call returns `Ok` with a `CloneResult` whose `success` is
`false`. -/
theorem c1_negotiation_bound :
    (∀ env : AuthEnv,
        1 ≤ (runRejecting env).1 ∧ (runRejecting env).1 ≤ 4 ∧
        (((runRejecting env).2 = rstr ("No authentication method available") ∧
            (runRejecting env).1 ≤ 3) ∨
         ((runRejecting env).2 = rstr ("Authentication failed after multiple attempts") ∧
            (runRejecting env).1 = 4))) ∧
    (∀ (url path : List Nat) (env : AuthEnv),
        GitService.clone_repository url path (.error (runRejecting env).2) =
          .ok { success := false, path := path,
                message := rstr ("Failed to clone repository: ") ++ (runRejecting env).2 }) := by
  constructor
  · intro env
    obtain ⟨a, b, c, d, e, f, g, h, i, j⟩ := env
    revert a b c d e f g h i j
    decide
  · intro url path env
    rfl

/-! ## Branch creation (C6, C7) -/

/-- Any world whose branch list starts with `name` reports the branch
as existing. -/
theorem gitBranchList_head (w1 : GitWorld) (name : List Nat) (rest : List (List Nat))
    (hb : w1.branches = name :: rest) : gitBranchList w1 name = true := by
  simp [gitBranchList, hb]

/-- The early-return path of `create_branch`
(git_branch_service.rs:107-115): an existing branch is a normal outcome,
reported without error and without touching the history table. -/
theorem create_branch_already_exists (g : BranchGenerator) (w : GitWorld)
    (db : List HistoryRow) (now : Nat) (req : BranchCreateRequest) (name : List Nat)
    (hgen : g.generate_branch_name req.pattern = some (.ok name))
    (hex : gitBranchList w name = true) :
    GitBranchService.create_branch g w db now req =
      some (.ok ({ branch_name := name, created := false, switched := false,
                   message := msgAlreadyExists name }, w, db)) := by
  unfold GitBranchService.create_branch
  rw [hgen]
  simp only [hex, if_true]

/-- C6: when the generated branch name already exists, `create_branch`
returns without error `created:false, switched:false` with the
"already exists" message and appends no history entry; and calling it
twice with the same pattern (starting from a repository without the
branch and with a working checkout) yields `created:true` then
`created:false`, with exactly one history entry persisted overall. -/
theorem c6_existing_branch_idempotence :
    (∀ (g : BranchGenerator) (w : GitWorld) (db : List HistoryRow) (now : Nat)
        (req : BranchCreateRequest) (name : List Nat),
        g.generate_branch_name req.pattern = some (.ok name) →
        gitBranchList w name = true →
        GitBranchService.create_branch g w db now req =
          some (.ok ({ branch_name := name, created := false, switched := false,
                       message := msgAlreadyExists name }, w, db))) ∧
    (∀ (g : BranchGenerator) (w : GitWorld) (db : List HistoryRow) (now1 now2 : Nat)
        (req : BranchCreateRequest) (name : List Nat),
        g.generate_branch_name req.pattern = some (.ok name) →
        gitBranchList w name = false →
        w.show_current_fails = false →
        w.checkout_new_fails = false →
        ∃ (r1 : BranchCreateResult) (w1 : GitWorld) (db1 : List HistoryRow),
          GitBranchService.create_branch g w db now1 req = some (.ok (r1, w1, db1)) ∧
          r1.created = true ∧ r1.branch_name = name ∧
          db1 = db ++ [historyRowOf name req.pattern now1] ∧
          GitBranchService.create_branch g w1 db1 now2 req =
            some (.ok ({ branch_name := name, created := false, switched := false,
                         message := msgAlreadyExists name }, w1, db1))) := by
  constructor
  · exact create_branch_already_exists
  · intro g w db now1 now2 req name hgen hex hshow hnew
    unfold GitBranchService.create_branch
    rw [hgen]
    simp only [hex, Bool.false_eq_true, if_false, hshow, gitCheckoutNew, hnew]
    cases hauto : req.auto_switch with
    | true =>
      simp only [Bool.not_true, Bool.false_eq_true, if_false]
      refine ⟨{ branch_name := name, created := true, switched := true,
                message := msgCreatedSwitched name },
              { branches := name :: w.branches, current := name,
                show_current_fails := false, checkout_new_fails := false,
                checkout_back_fails := w.checkout_back_fails,
                checkout_err := w.checkout_err },
              db ++ [historyRowOf name req.pattern now1],
              rfl, rfl, rfl, rfl, ?_⟩
      simp [gitBranchList]
    | false =>
      simp only [Bool.not_false, if_true, gitCheckoutBack]
      cases hback : w.checkout_back_fails with
      | false =>
        simp only [Bool.false_eq_true, if_false]
        refine ⟨{ branch_name := name, created := true, switched := false,
                  message := msgStayed name (req.base_branch.getD w.current) },
                { branches := name :: w.branches,
                  current := req.base_branch.getD w.current,
                  show_current_fails := false, checkout_new_fails := false,
                  checkout_back_fails := false, checkout_err := w.checkout_err },
                db ++ [historyRowOf name req.pattern now1],
                rfl, rfl, rfl, rfl, ?_⟩
        simp [gitBranchList]
      | true =>
        simp only [if_true]
        refine ⟨{ branch_name := name, created := true, switched := true,
                  message := msgCreatedSwitched name },
                { branches := name :: w.branches, current := name,
                  show_current_fails := false, checkout_new_fails := false,
                  checkout_back_fails := true, checkout_err := w.checkout_err },
                db ++ [historyRowOf name req.pattern now1],
                rfl, rfl, rfl, rfl, ?_⟩
        simp [gitBranchList]

/-- Witness for C6: two calls on a fresh `main`-only repository with the
round-trip pattern. -/
theorem c6_existing_branch_idempotence_witness :
    ∃ (r1 : BranchCreateResult) (w1 : GitWorld) (db1 : List HistoryRow),
      GitBranchService.create_branch exampleGenerator exampleWorld [] 10 exampleRequest =
        some (.ok (r1, w1, db1)) ∧
      r1.created = true ∧
      r1.branch_name = exampleBranchName ∧
      db1 = [] ++ [historyRowOf exampleBranchName exampleRequest.pattern 10] ∧
      GitBranchService.create_branch exampleGenerator w1 db1 20 exampleRequest =
        some (.ok ({ branch_name := exampleBranchName, created := false, switched := false,
                     message := msgAlreadyExists exampleBranchName }, w1, db1)) :=
  c6_existing_branch_idempotence.2 exampleGenerator exampleWorld [] 10 20 exampleRequest
    exampleBranchName (by rfl) (by decide) rfl rfl

/-- C7: whenever the checkout -b step succeeds, exactly one history
entry with the branch name, the serialized pattern, and the current
timestamp is appended, regardless of the outcome of the optional
switch-back; and if `auto_switch` is false and the switch-back checkout
fails, the result still reports `created:true` and `switched:true` with
the caller left on the new branch. -/
theorem c7_history_on_success :
    (∀ (g : BranchGenerator) (w : GitWorld) (db : List HistoryRow) (now : Nat)
        (req : BranchCreateRequest) (name : List Nat),
        g.generate_branch_name req.pattern = some (.ok name) →
        gitBranchList w name = false →
        w.show_current_fails = false →
        w.checkout_new_fails = false →
        ∃ (r : BranchCreateResult) (w2 : GitWorld) (db2 : List HistoryRow),
          GitBranchService.create_branch g w db now req = some (.ok (r, w2, db2)) ∧
          db2 = db ++ [historyRowOf name req.pattern now] ∧
          r.created = true) ∧
    (∀ (g : BranchGenerator) (w : GitWorld) (db : List HistoryRow) (now : Nat)
        (req : BranchCreateRequest) (name : List Nat),
        g.generate_branch_name req.pattern = some (.ok name) →
        gitBranchList w name = false →
        w.show_current_fails = false →
        w.checkout_new_fails = false →
        req.auto_switch = false →
        w.checkout_back_fails = true →
        ∃ (r : BranchCreateResult) (w2 : GitWorld) (db2 : List HistoryRow),
          GitBranchService.create_branch g w db now req = some (.ok (r, w2, db2)) ∧
          r.created = true ∧ r.switched = true ∧ w2.current = name ∧
          db2 = db ++ [historyRowOf name req.pattern now]) := by
  constructor
  · intro g w db now req name hgen hex hshow hnew
    unfold GitBranchService.create_branch
    rw [hgen]
    simp only [hex, Bool.false_eq_true, if_false, hshow, gitCheckoutNew, hnew]
    cases hauto : req.auto_switch with
    | true =>
      simp only [Bool.not_true, Bool.false_eq_true, if_false]
      exact ⟨_, _, _, rfl, rfl, rfl⟩
    | false =>
      simp only [Bool.not_false, if_true, gitCheckoutBack]
      cases hback : w.checkout_back_fails with
      | false =>
        simp only [Bool.false_eq_true, if_false]
        exact ⟨_, _, _, rfl, rfl, rfl⟩
      | true =>
        simp only [if_true]
        exact ⟨_, _, _, rfl, rfl, rfl⟩
  · intro g w db now req name hgen hex hshow hnew hauto hback
    unfold GitBranchService.create_branch
    rw [hgen]
    simp only [hex, Bool.false_eq_true, if_false, hshow, gitCheckoutNew, hnew,
      hauto, Bool.not_false, if_true, gitCheckoutBack, hback]
    exact ⟨_, _, _, rfl, rfl, rfl, rfl, rfl⟩

/-- Witness for C7 at a world whose switch-back fails, with
`auto_switch` disabled. -/
theorem c7_history_on_success_witness :
    ∃ (r : BranchCreateResult) (w2 : GitWorld) (db2 : List HistoryRow),
      GitBranchService.create_branch exampleGenerator switchFailWorld [] 11 noSwitchRequest =
        some (.ok (r, w2, db2)) ∧
      r.created = true ∧ r.switched = true ∧
      w2.current = exampleBranchName ∧
      db2 = [] ++ [historyRowOf exampleBranchName noSwitchRequest.pattern 11] :=
  c7_history_on_success.2 exampleGenerator switchFailWorld [] 11 noSwitchRequest
    exampleBranchName (by rfl) (by decide) rfl rfl rfl rfl

/-! ## History ordering (C8) -/

theorem mem_insertDesc (r a : HistoryRow) :
    ∀ (l : List HistoryRow), a ∈ insertDesc r l ↔ a = r ∨ a ∈ l := by
  intro l
  induction l with
  | nil => simp [insertDesc]
  | cons x xs ih =>
    unfold insertDesc
    split_ifs with h
    · simp
    · simp only [List.mem_cons, ih]
      tauto

theorem pairwise_insertDesc (r : HistoryRow) :
    ∀ (l : List HistoryRow),
      l.Pairwise (fun a b => b.created_at ≤ a.created_at) →
      (insertDesc r l).Pairwise (fun a b => b.created_at ≤ a.created_at) := by
  intro l
  induction l with
  | nil => intro _; simp [insertDesc]
  | cons x xs ih =>
    intro h
    unfold insertDesc
    split_ifs with hle
    · refine List.Pairwise.cons ?_ h
      intro b hb
      rcases List.mem_cons.mp hb with hb | hb
      · rw [hb]; exact hle
      · exact le_trans (List.rel_of_pairwise_cons h hb) hle
    · refine List.Pairwise.cons ?_ (ih (List.Pairwise.of_cons h))
      intro b hb
      rcases (mem_insertDesc r b xs).mp hb with hb | hb
      · rw [hb]; omega
      · exact List.rel_of_pairwise_cons h hb

theorem pairwise_sortByCreatedDesc :
    ∀ (l : List HistoryRow),
      (sortByCreatedDesc l).Pairwise (fun a b => b.created_at ≤ a.created_at) := by
  intro l
  induction l with
  | nil => simp [sortByCreatedDesc]
  | cons x xs ih => exact pairwise_insertDesc x (sortByCreatedDesc xs) ih

theorem mem_sortByCreatedDesc (a : HistoryRow) :
    ∀ (l : List HistoryRow), a ∈ sortByCreatedDesc l ↔ a ∈ l := by
  intro l
  induction l with
  | nil => simp [sortByCreatedDesc]
  | cons x xs ih =>
    unfold sortByCreatedDesc
    rw [mem_insertDesc, ih]
    simp

theorem insertDesc_append (r : HistoryRow) :
    ∀ (l : List HistoryRow), (∀ y ∈ l, r.created_at < y.created_at) →
      insertDesc r l = l ++ [r] := by
  intro l
  induction l with
  | nil => intro _; rfl
  | cons x xs ih =>
    intro h
    unfold insertDesc
    rw [if_neg (by have := h x (List.mem_cons_self x xs); omega),
      ih (fun y hy => h y (List.mem_cons_of_mem x hy))]
    rfl

theorem sortByCreatedDesc_strictAsc :
    ∀ (l : List HistoryRow),
      l.Pairwise (fun a b => a.created_at < b.created_at) →
      sortByCreatedDesc l = l.reverse := by
  intro l
  induction l with
  | nil => intro _; rfl
  | cons x xs ih =>
    intro h
    unfold sortByCreatedDesc
    rw [ih (List.Pairwise.of_cons h),
      insertDesc_append x xs.reverse
        (fun y hy => List.rel_of_pairwise_cons h (List.mem_reverse.mp hy)),
      List.reverse_cons]

theorem filterMap_all_some_length {α β : Type} (f : α → Option β) :
    ∀ (l : List α), (∀ a ∈ l, (f a).isSome = true) →
      (l.filterMap f).length = l.length := by
  intro l
  induction l with
  | nil => intro _; rfl
  | cons a rest ih =>
    intro h
    rw [List.filterMap_cons]
    cases hf : f a with
    | none =>
      have := h a (List.mem_cons_self a rest)
      rw [hf] at this
      cases this
    | some b =>
      simp only [List.length_cons, ih (fun c hc => h c (List.mem_cons_of_mem a hc))]

theorem histEntry_mem_created (r : HistoryRow) (e : List Nat × BranchPattern × Nat) :
    e ∈ histEntry r → e.2.2 = r.created_at := by
  unfold histEntry
  cases hp : parsePattern r.pattern_json with
  | none => intro h; cases h
  | some p =>
    intro h
    rw [Option.mem_def, Option.map_some'] at h
    rw [Option.some_inj.mp h.symm]

theorem histEntry_isSome (r : HistoryRow)
    (h : (parsePattern r.pattern_json).isSome = true) : (histEntry r).isSome = true := by
  unfold histEntry
  cases hp : parsePattern r.pattern_json with
  | none => rw [hp] at h; cases h
  | some p => rfl

/-- C8: `get_branch_history` defaults the limit to 50, returns at most
`limit` entries, in descending `created_at` order; rows whose pattern
fails to deserialize are silently skipped (an all-bad table yields the
empty list, not an error); and for a table of N rows with strictly
increasing timestamps and deserializable patterns, `limit = k` returns
exactly the k most recent rows, most recent first. -/
theorem c8_get_branch_history_ordering :
    (∀ db : List HistoryRow,
        GitBranchService.get_branch_history db none =
          GitBranchService.get_branch_history db (some 50)) ∧
    (∀ (db : List HistoryRow) (k : Int), 0 ≤ k →
        (GitBranchService.get_branch_history db (some k)).length ≤ k.toNat) ∧
    (∀ (db : List HistoryRow) (limit : Option Int),
        (GitBranchService.get_branch_history db limit).Pairwise
          (fun a b => b.2.2 ≤ a.2.2)) ∧
    (∀ (db : List HistoryRow) (limit : Option Int),
        (∀ r ∈ db, parsePattern r.pattern_json = none) →
        GitBranchService.get_branch_history db limit = []) ∧
    (∀ (db : List HistoryRow) (k : Int),
        db.Pairwise (fun a b => a.created_at < b.created_at) →
        (∀ r ∈ db, (parsePattern r.pattern_json).isSome = true) →
        0 ≤ k →
        GitBranchService.get_branch_history db (some k) =
          (db.reverse.take k.toNat).filterMap histEntry ∧
        (GitBranchService.get_branch_history db (some k)).length =
          min k.toNat db.length) := by
  refine ⟨fun db => rfl, ?_, ?_, ?_, ?_⟩
  · intro db k hk
    simp only [GitBranchService.get_branch_history, Option.getD_some]
    rw [if_neg (by omega)]
    calc ((sortByCreatedDesc db).take k.toNat |>.filterMap histEntry).length
        ≤ ((sortByCreatedDesc db).take k.toNat).length :=
          List.length_filterMap_le _ _
      _ ≤ k.toNat := by rw [List.length_take]; omega
  · intro db limit
    simp only [GitBranchService.get_branch_history, Option.getD_some]
    have hsorted : ∀ taken : List HistoryRow,
        taken.Pairwise (fun a b => b.created_at ≤ a.created_at) →
        (taken.filterMap histEntry).Pairwise (fun a b => b.2.2 ≤ a.2.2) := by
      intro taken ht
      rw [List.pairwise_filterMap]
      refine ht.imp ?_
      intro a b hab x hx y hy
      rw [histEntry_mem_created a x hx, histEntry_mem_created b y hy]
      exact hab
    split_ifs with hneg
    · exact hsorted _ (pairwise_sortByCreatedDesc db)
    · exact hsorted _
        (List.Pairwise.sublist (List.take_sublist _ _) (pairwise_sortByCreatedDesc db))
  · intro db limit hall
    simp only [GitBranchService.get_branch_history, Option.getD_some]
    have hnone : ∀ taken : List HistoryRow, taken.Sublist (sortByCreatedDesc db) →
        taken.filterMap histEntry = [] := by
      intro taken hsub
      rw [List.filterMap_eq_nil]
      intro r hr
      have hdb : r ∈ db :=
        (mem_sortByCreatedDesc r db).mp (hsub.mem hr)
      unfold histEntry
      rw [hall r hdb]
      rfl
    split_ifs with hneg
    · exact hnone _ (List.Sublist.refl _)
    · exact hnone _ (List.take_sublist _ _)
  · intro db k hasc hsome hk
    simp only [GitBranchService.get_branch_history, Option.getD_some]
    rw [if_neg (by omega), sortByCreatedDesc_strictAsc db hasc]
    refine ⟨rfl, ?_⟩
    rw [filterMap_all_some_length histEntry _ ?hall, List.length_take,
      List.length_reverse]
    case hall =>
      intro r hr
      exact histEntry_isSome r
        (hsome r (List.mem_reverse.mp (List.mem_of_mem_take hr)))

/-- Witness for C8: three rows with timestamps 1 < 2 < 3 and limit 2. -/
theorem c8_get_branch_history_ordering_witness :
    GitBranchService.get_branch_history exampleHistoryDb (some 2) =
      (exampleHistoryDb.reverse.take (2 : Int).toNat).filterMap histEntry ∧
    (GitBranchService.get_branch_history exampleHistoryDb (some 2)).length =
      min (2 : Int).toNat exampleHistoryDb.length :=
  c8_get_branch_history_ordering.2.2.2.2 exampleHistoryDb 2
    (by decide) (by decide) (by decide)
